import Mathlib

/-!
Shallow embedding of the dock's window/application matching engine of
`modules/dock.py` (class `Dock` and class `DockConfig`), together with
proofs about it.  Python strings are modelled as lists of characters,
Python dicts (which preserve insertion order) as association lists, and
Python exceptions as `Except` values.
-/

/-- Python strings are modelled as lists of characters. -/
abbrev PyStr := List Char

/-- View a Lean string literal as the model string type. -/
def pystr (s : String) : PyStr := s.data

/-- Python `str.lower()`, modelled as ASCII case folding per character. -/
def pyLower (s : PyStr) : PyStr := s.map Char.toLower

/-- Python `s.endswith(suffix)`. -/
def pyEndsWith (s suffix : PyStr) : Bool := suffix.isSuffixOf s

/-- One step of the suffix-stripping loop of `Dock._normalize_window_class`:
`if normalized.endswith(suffix): normalized = normalized[:-len(suffix)]`.
Python `s[:-k]` with `k` positive keeps the first `len(s) - k` characters;
every suffix in the fixed list below is non-empty. -/
def stripSuffix (s : PyStr) (suffix : PyStr) : PyStr :=
  if pyEndsWith s suffix then s.take (s.length - suffix.length) else s

/-- The fixed suffix list of `Dock._normalize_window_class`. -/
def dockSuffixes : List PyStr :=
  [pystr ".bin", pystr ".exe", pystr ".so", pystr "-bin", pystr "-gtk"]

/-- `Dock._normalize_window_class`: return `""` for the empty string, else
lowercase and then scan the fixed suffix list in order, stripping each
suffix found at the end of the current value (the Python loop has no
`break`, so several suffixes can be stripped in one call). -/
def normalizeWindowClass (s : PyStr) : PyStr :=
  if s = [] then [] else dockSuffixes.foldl stripSuffix (pyLower s)

-- ==================== lemmas about lowercasing and stripping ====================

theorem charToLower_idem (c : Char) : c.toLower.toLower = c.toLower := by
  by_cases h : c.toNat ≥ 65 ∧ c.toNat ≤ 90
  · obtain ⟨ha, hb⟩ := h
    have h1 : c.toLower = Char.ofNat (c.toNat + 32) := by
      unfold Char.toLower
      simp [ha, hb]
    rw [h1]
    obtain ⟨n, hn⟩ : ∃ n, c.toNat = n := ⟨c.toNat, rfl⟩
    rw [hn] at ha hb ⊢
    interval_cases n <;> decide
  · have h1 : c.toLower = c := by
      unfold Char.toLower
      simp [h]
    rw [h1]
    exact h1

theorem pyLower_idem (s : PyStr) : pyLower (pyLower s) = pyLower s := by
  induction s with
  | nil => rfl
  | cons c t ih =>
    show Char.toLower (Char.toLower c) :: pyLower (pyLower t)
        = Char.toLower c :: pyLower t
    rw [charToLower_idem, ih]

theorem pyLower_stripSuffix (s suffix : PyStr) (h : pyLower s = s) :
    pyLower (stripSuffix s suffix) = stripSuffix s suffix := by
  unfold stripSuffix
  split
  · show pyLower (s.take (s.length - suffix.length)) = _
    unfold pyLower
    rw [List.map_take]
    exact congrArg (List.take (s.length - suffix.length)) h
  · exact h

theorem pyLower_foldl_strip (L : List PyStr) (s : PyStr) (h : pyLower s = s) :
    pyLower (L.foldl stripSuffix s) = L.foldl stripSuffix s := by
  induction L generalizing s with
  | nil => exact h
  | cons suf rest ih =>
    exact ih (stripSuffix s suf) (pyLower_stripSuffix s suf h)

theorem foldl_strip_of_no_suffix (L : List PyStr) (s : PyStr)
    (h : ∀ suf ∈ L, pyEndsWith s suf = false) :
    L.foldl stripSuffix s = s := by
  induction L with
  | nil => rfl
  | cons suf rest ih =>
    have hs : stripSuffix s suf = s := by
      unfold stripSuffix
      simp [h suf (by simp)]
    rw [List.foldl_cons, hs]
    exact ih fun x hx => h x (by simp [hx])

theorem pyLower_normalize (s : PyStr) :
    pyLower (normalizeWindowClass s) = normalizeWindowClass s := by
  unfold normalizeWindowClass
  split
  · rfl
  · exact pyLower_foldl_strip dockSuffixes (pyLower s) (pyLower_idem s)

/-- C4 counterexample: `_normalize_window_class` is not idempotent.  On
`"a.bin.exe"` one pass strips only `".exe"` (the `".bin"` check happened
before the `".exe"` strip exposed it), yielding `"a.bin"`; a second pass
strips `".bin"` and yields `"a"`. -/
theorem dock_c4_counterexample :
    normalizeWindowClass (normalizeWindowClass (pystr "a.bin.exe"))
      ≠ normalizeWindowClass (pystr "a.bin.exe")
    ∧ normalizeWindowClass (pystr "a.bin.exe") = pystr "a.bin"
    ∧ normalizeWindowClass (pystr "a.bin") = pystr "a" := by
  refine ⟨?_, by decide, by decide⟩
  decide

/-- C4 (amended): `_normalize_window_class` lowercases and strips, scanning
the fixed list `.bin`, `.exe`, `.so`, `-bin`, `-gtk` in order, every suffix
it finds at the end of the current value (possibly several in one pass);
it is idempotent on every input whose single-pass result does not itself
end with one of the fixed suffixes. -/
theorem dock_c4_conditional_idempotence (s : PyStr)
    (h : ∀ suf ∈ dockSuffixes, pyEndsWith (normalizeWindowClass s) suf = false) :
    normalizeWindowClass (normalizeWindowClass s) = normalizeWindowClass s := by
  by_cases hz : normalizeWindowClass s = []
  · rw [hz]
    rfl
  · have step : normalizeWindowClass (normalizeWindowClass s)
        = dockSuffixes.foldl stripSuffix (pyLower (normalizeWindowClass s)) := by
      conv_lhs => rw [normalizeWindowClass.eq_def]
      rw [if_neg hz]
    rw [step, pyLower_normalize s]
    exact foldl_strip_of_no_suffix dockSuffixes (normalizeWindowClass s) h

/-- Witness for the amended C4 theorem at the concrete input `"Firefox-Bin"`
(one pass yields `"firefox"`, which ends with no fixed suffix). -/
theorem dock_c4_conditional_idempotence_witness :
    (∀ suf ∈ dockSuffixes,
        pyEndsWith (normalizeWindowClass (pystr "Firefox-Bin")) suf = false)
    ∧ normalizeWindowClass (normalizeWindowClass (pystr "Firefox-Bin"))
        = normalizeWindowClass (pystr "Firefox-Bin") :=
  ⟨by decide, dock_c4_conditional_idempotence (pystr "Firefox-Bin") (by decide)⟩

-- ==================== live windows: extraction and grouping ====================

/-- A compositor window record, as consumed by the dock
(fields of the Hyprland `clients` JSON actually read by the code). -/
structure Client where
  address : PyStr
  initialClass : PyStr
  classField : PyStr
  title : PyStr
  workspace : Int
deriving DecidableEq, Repr

/-- Python `title.split(" - ")[0]`: the part of the string before the first
occurrence of the (non-empty) separator, or the whole string if the
separator does not occur. -/
def splitFirst (sep : PyStr) : PyStr → PyStr
  | [] => []
  | c :: rest => if sep.isPrefixOf (c :: rest) then [] else c :: splitFirst sep rest

/-- Python `str.strip()`: drop whitespace from both ends. -/
def pyStrip (s : PyStr) : PyStr :=
  ((s.dropWhile Char.isWhitespace).reverse.dropWhile Char.isWhitespace).reverse

/-- `Dock._extract_window_id`: lowercased `initialClass` if non-empty, else
lowercased `class`, else from the lowercased title the first segment before
`" - "` (stripped) when its length exceeds 1, else the whole lowercased
title, else the literal `"unknown-app"`. -/
def extractWindowId (c : Client) : PyStr :=
  let ic := pyLower c.initialClass
  if ic ≠ [] then ic
  else
    let cf := pyLower c.classField
    if cf ≠ [] then cf
    else
      let t := pyLower c.title
      if t ≠ [] then
        let possible := pyStrip (splitFirst (pystr " - ") t)
        if possible ≠ [] ∧ 1 < possible.length then possible else t
      else pystr "unknown-app"

/-- The `running_windows` dict: a Python dict is modelled as an association
list in insertion order with unique keys. -/
abbrev RWMap := List (PyStr × List Client)

/-- Dict lookup. -/
def alookup (m : RWMap) (k : PyStr) : Option (List Client) :=
  match m with
  | [] => none
  | (k0, v) :: rest => if k0 = k then some v else alookup rest k

/-- `d.setdefault(k, []).append(c)`: append `c` to the group of `k`,
inserting a fresh key at the end of the dict if absent. -/
def updAppend (m : RWMap) (k : PyStr) (c : Client) : RWMap :=
  match m with
  | [] => [(k, [c])]
  | (k0, v) :: rest =>
      if k0 = k then (k0, v ++ [c]) :: rest else (k0, v) :: updAppend rest k c

/-- `d.setdefault(k, []).extend(xs)`: append all of `xs` to the group of
`k`, inserting a fresh key at the end of the dict if absent. -/
def updExtend (m : RWMap) (k : PyStr) (xs : List Client) : RWMap :=
  match m with
  | [] => [(k, xs)]
  | (k0, v) :: rest =>
      if k0 = k then (k0, v ++ xs) :: rest else (k0, v) :: updExtend rest k xs

/-- The group stored under a key (empty when the key is absent). -/
def groupAt (m : RWMap) (k : PyStr) : List Client := (alookup m k).getD []

/-- One iteration of the loop in `Dock._build_running_windows`: group the
client under its extracted identifier, and when the normalized identifier
differs, extend the normalized group with the (just updated) raw group. -/
def brwStep (m : RWMap) (c : Client) : RWMap :=
  let wid := extractWindowId c
  let m1 := updAppend m wid c
  let nid := normalizeWindowClass wid
  if nid ≠ wid then updExtend m1 nid (groupAt m1 wid) else m1

/-- `Dock._build_running_windows`. -/
def buildRunningWindows (clients : List Client) : RWMap :=
  clients.foldl brwStep []

-- ==================== lemmas about the grouping ====================

theorem groupAt_updAppend (m : RWMap) (k0 k : PyStr) (c : Client) :
    groupAt (updAppend m k0 c) k
      = if k0 = k then groupAt m k ++ [c] else groupAt m k := by
  induction m with
  | nil =>
    by_cases h : k0 = k <;> simp [updAppend, groupAt, alookup, h]
  | cons kv rest ih =>
    obtain ⟨k1, v⟩ := kv
    by_cases h1 : k1 = k0
    · subst h1
      by_cases h2 : k1 = k <;> simp [updAppend, groupAt, alookup, h2]
    · by_cases h2 : k1 = k
      · subst h2
        have : ¬ k0 = k1 := fun hc => h1 hc.symm
        simp [updAppend, groupAt, alookup, h1, this]
      · simp only [updAppend, if_neg h1]
        show groupAt ((k1, v) :: updAppend rest k0 c) k = _
        simp only [groupAt, alookup, if_neg h2]
        exact ih

theorem groupAt_updExtend (m : RWMap) (k0 k : PyStr) (xs : List Client) :
    groupAt (updExtend m k0 xs) k
      = if k0 = k then groupAt m k ++ xs else groupAt m k := by
  induction m with
  | nil =>
    by_cases h : k0 = k <;> simp [updExtend, groupAt, alookup, h]
  | cons kv rest ih =>
    obtain ⟨k1, v⟩ := kv
    by_cases h1 : k1 = k0
    · subst h1
      by_cases h2 : k1 = k <;> simp [updExtend, groupAt, alookup, h2]
    · by_cases h2 : k1 = k
      · subst h2
        have : ¬ k0 = k1 := fun hc => h1 hc.symm
        simp [updExtend, groupAt, alookup, h1, this]
      · simp only [updExtend, if_neg h1]
        show groupAt ((k1, v) :: updExtend rest k0 xs) k = _
        simp only [groupAt, alookup, if_neg h2]
        exact ih

theorem mem_groupAt_brwStep (m : RWMap) (c x : Client) (k : PyStr)
    (h : x ∈ groupAt m k) : x ∈ groupAt (brwStep m c) k := by
  simp only [brwStep]
  have h1 : x ∈ groupAt (updAppend m (extractWindowId c) c) k := by
    rw [groupAt_updAppend]
    split
    · exact List.mem_append_left _ h
    · exact h
  split
  · rw [groupAt_updExtend]
    split
    · exact List.mem_append_left _ h1
    · exact h1
  · exact h1

theorem self_mem_brwStep (m : RWMap) (c : Client) :
    c ∈ groupAt (brwStep m c) (extractWindowId c)
    ∧ (normalizeWindowClass (extractWindowId c) ≠ extractWindowId c →
        c ∈ groupAt (brwStep m c) (normalizeWindowClass (extractWindowId c))) := by
  simp only [brwStep]
  have h1 : c ∈ groupAt (updAppend m (extractWindowId c) c) (extractWindowId c) := by
    rw [groupAt_updAppend, if_pos rfl]
    exact List.mem_append_right _ (by simp)
  constructor
  · split
    · rename_i hne
      rw [groupAt_updExtend]
      split
      · rename_i he
        exact absurd he hne
      · exact h1
    · exact h1
  · intro hne
    rw [if_pos hne, groupAt_updExtend, if_pos rfl]
    exact List.mem_append_right _ h1

theorem mem_groupAt_foldl (cs : List Client) (m : RWMap) (x : Client) (k : PyStr)
    (h : x ∈ groupAt m k) : x ∈ groupAt (cs.foldl brwStep m) k := by
  induction cs generalizing m with
  | nil => exact h
  | cons c rest ih => exact ih (brwStep m c) (mem_groupAt_brwStep m c x k h)

/-- C5 counterexample: with two clients of class `"Firefox.bin"`, the raw
key `"firefox.bin"` holds the two windows once each, but the normalized key
`"firefox"` holds the first window twice — so lookups by raw and by
normalized key do not yield the same group, and a window does not appear
once per raw-group membership. -/
theorem dock_c5_counterexample :
    let w1 : Client :=
      ⟨pystr "0x1", pystr "Firefox.bin", [], pystr "page one", 1⟩
    let w2 : Client :=
      ⟨pystr "0x2", pystr "Firefox.bin", [], pystr "page two", 1⟩
    groupAt (buildRunningWindows [w1, w2]) (pystr "firefox.bin") = [w1, w2]
    ∧ groupAt (buildRunningWindows [w1, w2]) (pystr "firefox") = [w1, w1, w2]
    ∧ groupAt (buildRunningWindows [w1, w2]) (pystr "firefox")
        ≠ groupAt (buildRunningWindows [w1, w2]) (pystr "firefox.bin") := by
  refine ⟨by decide, by decide, by decide⟩

/-- C5 (amended): every client is a member of the group stored under its raw
extracted identifier, and, when the normalized identifier differs from the
raw one, also of the group stored under the normalized identifier; the two
groups need not be equal (the normalized group can duplicate windows). -/
theorem dock_c5_member_both_keys (clients : List Client) (c : Client)
    (h : c ∈ clients) :
    c ∈ groupAt (buildRunningWindows clients) (extractWindowId c)
    ∧ (normalizeWindowClass (extractWindowId c) ≠ extractWindowId c →
        c ∈ groupAt (buildRunningWindows clients)
              (normalizeWindowClass (extractWindowId c))) := by
  unfold buildRunningWindows
  suffices hgen : ∀ m : RWMap,
      c ∈ groupAt (clients.foldl brwStep m) (extractWindowId c)
      ∧ (normalizeWindowClass (extractWindowId c) ≠ extractWindowId c →
          c ∈ groupAt (clients.foldl brwStep m)
                (normalizeWindowClass (extractWindowId c))) from hgen []
  induction clients with
  | nil => cases h
  | cons c0 rest ih =>
    intro m
    rcases List.mem_cons.mp h with hc | hc
    · subst hc
      obtain ⟨hraw, hnorm⟩ := self_mem_brwStep m c
      refine ⟨mem_groupAt_foldl rest _ c _ hraw, fun hne => ?_⟩
      exact mem_groupAt_foldl rest _ c _ (hnorm hne)
    · exact ih hc (brwStep m c0)

/-- Witness for the amended C5 theorem at a concrete client whose class
normalizes to a different string. -/
theorem dock_c5_member_both_keys_witness :
    let w1 : Client :=
      ⟨pystr "0x1", pystr "Firefox.bin", [], pystr "page one", 1⟩
    w1 ∈ [w1]
    ∧ (w1 ∈ groupAt (buildRunningWindows [w1]) (extractWindowId w1)
        ∧ (normalizeWindowClass (extractWindowId w1) ≠ extractWindowId w1 →
            w1 ∈ groupAt (buildRunningWindows [w1])
                  (normalizeWindowClass (extractWindowId w1)))) := by
  refine ⟨by decide, dock_c5_member_both_keys _ _ (by decide)⟩

-- ==================== application catalog and identifier index ====================

/-- A desktop application descriptor (the fields of the catalog entries the
dock reads; absent values are modelled as the empty, falsy string). -/
structure AppDesc where
  name : PyStr
  display_name : PyStr
  window_class : PyStr
  executable : PyStr
  command_line : PyStr
deriving DecidableEq, Repr

/-- The dock's view of the application catalog (`self._all_apps`). -/
structure DockCtx where
  allApps : List AppDesc
deriving DecidableEq, Repr

/-- The identifier index: a Python dict from lowercase identifier strings to
descriptors, modelled as an association list with unique keys. -/
abbrev IdMap := List (PyStr × AppDesc)

/-- Dict assignment `d[k] = a`: overwrite in place if the key exists
(keeping its position), else append the new key at the end. -/
def dInsert (m : IdMap) (k : PyStr) (a : AppDesc) : IdMap :=
  match m with
  | [] => [(k, a)]
  | (k0, v) :: rest =>
      if k0 = k then (k0, a) :: rest else (k0, v) :: dInsert rest k a

/-- Dict lookup `d.get(k)`. -/
def dLookup (m : IdMap) (k : PyStr) : Option AppDesc :=
  match m with
  | [] => none
  | (k0, v) :: rest => if k0 = k then some v else dLookup rest k

/-- Python `path.split('/')[-1]`: the part after the last slash. -/
def basename (s : PyStr) : PyStr := (s.reverse.takeWhile (fun c => c ≠ '/')).reverse

/-- The first whitespace-separated token of `command_line.split()`; Python
raises `IndexError` when the string is all whitespace, which no claim
exercises — modelled as the empty token. -/
def firstToken (s : PyStr) : PyStr :=
  (s.dropWhile Char.isWhitespace).takeWhile (fun c => ¬ c.isWhitespace)

/-- Registration of one descriptor in `Dock._build_app_identifiers_map`:
lowercase forms of name, display name, window class, executable basename
and the basename of the first command-line token, each only when truthy. -/
def registerApp (m : IdMap) (a : AppDesc) : IdMap :=
  let m1 := if a.name ≠ [] then dInsert m (pyLower a.name) a else m
  let m2 := if a.display_name ≠ [] then dInsert m1 (pyLower a.display_name) a else m1
  let m3 := if a.window_class ≠ [] then dInsert m2 (pyLower a.window_class) a else m2
  let m4 := if a.executable ≠ [] then dInsert m3 (pyLower (basename a.executable)) a else m3
  if a.command_line ≠ [] then
    dInsert m4 (pyLower (basename (firstToken a.command_line))) a
  else m4

/-- `Dock._build_app_identifiers_map` over the whole catalog
(collisions keep the last-registered descriptor). -/
def appIdentifiers (ctx : DockCtx) : IdMap :=
  ctx.allApps.foldl registerApp []

/-- Substring containment (Python `needle in hay`). -/
def containsSub (needle : PyStr) : PyStr → Bool
  | [] => needle.isEmpty
  | c :: rest => needle.isPrefixOf (c :: rest) || containsSub needle rest

/-- The linear fuzzy scan of `Dock.find_app_by_key`: the first catalog
descriptor one of whose truthy fields contains the key as a substring. -/
def fuzzyLookup (apps : List AppDesc) (nid : PyStr) : Option AppDesc :=
  apps.findSome? fun a =>
    if a.name ≠ [] ∧ containsSub nid (pyLower a.name) then some a
    else if a.display_name ≠ [] ∧ containsSub nid (pyLower a.display_name) then some a
    else if a.window_class ≠ [] ∧ containsSub nid (pyLower a.window_class) then some a
    else if a.executable ≠ [] ∧ containsSub nid (pyLower a.executable) then some a
    else if a.command_line ≠ [] ∧ containsSub nid (pyLower a.command_line) then some a
    else none

/-- `Dock.find_app_by_key`: falsy key gives none; otherwise exact lookup of
the lowercased key in the identifier index, then the fuzzy scan. -/
def findAppByKey (ctx : DockCtx) (k : PyStr) : Option AppDesc :=
  if k = [] then none
  else
    match dLookup (appIdentifiers ctx) (pyLower k) with
    | some a => some a
    | none => fuzzyLookup ctx.allApps (pyLower k)

/-- A structured pinned record: a dict whose five known keys may each be
absent. -/
structure PinnedRec where
  name : Option PyStr
  display_name : Option PyStr
  window_class : Option PyStr
  executable : Option PyStr
  command_line : Option PyStr
deriving DecidableEq, Repr

/-- The duck-typed `app_identifier` union: a structured record or a bare
string. -/
inductive AppId where
  | record (r : PinnedRec)
  | bare (s : PyStr)
deriving DecidableEq, Repr

/-- The five record keys in the fixed priority order of `Dock.find_app`. -/
inductive FieldKey where
  | window_class | executable | command_line | name | display_name
deriving DecidableEq, Repr

def keyOrder : List FieldKey :=
  [.window_class, .executable, .command_line, .name, .display_name]

def getKey (r : PinnedRec) : FieldKey → Option PyStr
  | .window_class => r.window_class
  | .executable => r.executable
  | .command_line => r.command_line
  | .name => r.name
  | .display_name => r.display_name

/-- Python truthiness of the record: the empty dict is falsy. -/
def recIsEmpty (r : PinnedRec) : Bool :=
  r.name.isNone && r.display_name.isNone && r.window_class.isNone
    && r.executable.isNone && r.command_line.isNone

/-- `Dock.find_app`: falsy identifier gives none; a record loops over the
five keys in priority order, calling `find_app_by_key` on each present
truthy value and returning the first hit; a bare string is a single key. -/
def findApp (ctx : DockCtx) : AppId → Option AppDesc
  | .bare s => if s = [] then none else findAppByKey ctx s
  | .record r =>
      if recIsEmpty r then none
      else keyOrder.findSome? fun k =>
        match getKey r k with
        | some v => if v ≠ [] then findAppByKey ctx v else none
        | none => none

-- ==================== C3: per-key exact-then-fuzzy order ====================

/-- Modelled from the amended claim wording: the first present, truthy key
in priority order for which exact-or-fuzzy lookup succeeds wins; within a
key, exact precedes fuzzy. -/
def presentKeys (r : PinnedRec) : List PyStr :=
  keyOrder.filterMap fun k => (getKey r k).bind fun v => if v = [] then none else some v

def findAppKeySpec (ctx : DockCtx) (v : PyStr) : Option AppDesc :=
  match dLookup (appIdentifiers ctx) (pyLower v) with
  | some a => some a
  | none => fuzzyLookup ctx.allApps (pyLower v)

def findAppFirstKeyWins (ctx : DockCtx) (r : PinnedRec) : Option AppDesc :=
  (presentKeys r).findSome? (findAppKeySpec ctx)

theorem findSome?_filterMap {α β γ : Type} (l : List α) (g : α → Option β)
    (h : β → Option γ) :
    (l.filterMap g).findSome? h = l.findSome? fun a => (g a).bind h := by
  induction l with
  | nil => rfl
  | cons a rest ih =>
    rw [List.filterMap_cons]
    cases hg : g a with
    | none => simpa [List.findSome?_cons, hg] using ih
    | some b =>
      cases hb : h b with
      | none => simpa [List.findSome?_cons, hg, hb] using ih
      | some c => simp [List.findSome?_cons, hg, hb]

theorem recIsEmpty_getKey (r : PinnedRec) (h : recIsEmpty r = true) (k : FieldKey) :
    getKey r k = none := by
  unfold recIsEmpty at h
  simp only [Bool.and_eq_true, Option.isNone_iff_eq_none] at h
  obtain ⟨⟨⟨⟨h1, h2⟩, h3⟩, h4⟩, h5⟩ := h
  cases k <;> simp [getKey, h1, h2, h3, h4, h5]

/-- C3 (amended): `find_app` on a structured record tries the keys
window class, executable, command line, name, display name in that order,
trying exact and then fuzzy lookup on each key in turn, and the first key
producing any hit wins — so a fuzzy hit on an earlier key takes precedence
over an exact hit on a later key. -/
theorem dock_c3_first_key_wins (ctx : DockCtx) (r : PinnedRec) :
    findApp ctx (.record r) = findAppFirstKeyWins ctx r := by
  show (if recIsEmpty r then none
      else keyOrder.findSome? fun k =>
        match getKey r k with
        | some v => if v ≠ [] then findAppByKey ctx v else none
        | none => none)
    = findAppFirstKeyWins ctx r
  unfold findAppFirstKeyWins presentKeys
  by_cases he : recIsEmpty r = true
  · simp only [he, if_true]
    have : ∀ k ∈ keyOrder, getKey r k = none := fun k _ => recIsEmpty_getKey r he k
    rw [show keyOrder.filterMap
          (fun k => (getKey r k).bind fun v => if v = [] then none else some v)
        = [] from by
      rw [List.filterMap_eq_nil_iff]
      intro k hk
      rw [this k hk]
      rfl]
    rfl
  · rw [if_neg he, findSome?_filterMap]
    congr 1
    funext k
    cases hk : getKey r k with
    | none => rfl
    | some v =>
      by_cases hv : v = []
      · simp [hv]
      · simp [hv, findAppByKey, findAppKeySpec]

def c3Alpha : AppDesc :=
  ⟨pystr "Alpha", [], pystr "alphaxyz", [], []⟩

def c3Beta : AppDesc :=
  ⟨pystr "Beta", [], [], pystr "/bin/beta", []⟩

def c3Ctx : DockCtx := ⟨[c3Alpha, c3Beta]⟩

def c3Rec : PinnedRec :=
  ⟨none, none, some (pystr "xyz"), some (pystr "beta"), none⟩

/-- C3 counterexample: the record's `executable` key `"beta"` has an exact
hit in the identifier index (the Beta descriptor), yet `find_app` returns
the Alpha descriptor, produced by a fuzzy substring match on the earlier
`window_class` key `"xyz"` — so exhausting exact matches across all keys
before any fuzzy match, as the claim states, does not hold. -/
theorem dock_c3_counterexample :
    findApp c3Ctx (.record c3Rec) = some c3Alpha
    ∧ dLookup (appIdentifiers c3Ctx) (pyLower (pystr "beta")) = some c3Beta
    ∧ c3Alpha ≠ c3Beta
    ∧ (getKey c3Rec .window_class).bind
        (fun v => dLookup (appIdentifiers c3Ctx) (pyLower v)) = none
    ∧ (getKey c3Rec .executable).bind
        (fun v => dLookup (appIdentifiers c3Ctx) (pyLower v)) = some c3Beta
    ∧ getKey c3Rec .command_line = none
    ∧ getKey c3Rec .name = none
    ∧ getKey c3Rec .display_name = none := by
  refine ⟨by decide, by decide, by decide, by decide, by decide, rfl, rfl, rfl⟩

-- ==================== reconciliation: pinned and open buttons ====================

/-- First-occurrence deduplication with an accumulator of seen values.
Python's `list(set(identifiers))` has an unspecified iteration order; it is
modelled as first-occurrence order, on which no settled property depends. -/
def dedupFirstAux (seen : List PyStr) : List PyStr → List PyStr
  | [] => []
  | x :: rest =>
      if x ∈ seen then dedupFirstAux seen rest
      else x :: dedupFirstAux (x :: seen) rest

def dedupFirst (l : List PyStr) : List PyStr := dedupFirstAux [] l

/-- `Dock._get_possible_identifiers`: lowercased truthy values of the five
record keys (or the lowercased bare string), then, when the record resolves
to a descriptor, the descriptor's window class, executable basename, first
command-line token basename, name and display name, deduplicated. -/
def possibleIdentifiers (ctx : DockCtx) (aid : AppId) : List PyStr :=
  let fromData := match aid with
    | .record r => keyOrder.filterMap fun k =>
        match getKey r k with
        | some v => if v ≠ [] then some (pyLower v) else none
        | none => none
    | .bare s => [pyLower s]
  let fromApp := match findApp ctx aid with
    | none => []
    | some a =>
        (if a.window_class ≠ [] then [pyLower a.window_class] else [])
        ++ (if a.executable ≠ [] then [pyLower (basename a.executable)] else [])
        ++ (if a.command_line ≠ [] then
              if a.command_line.dropWhile Char.isWhitespace ≠ []
              then [pyLower (basename (firstToken a.command_line))] else []
            else [])
        ++ (if a.name ≠ [] then [pyLower a.name] else [])
        ++ (if a.display_name ≠ [] then [pyLower a.display_name] else [])
  dedupFirst (fromData ++ fromApp)

/-- `Dock._find_instances_for_app`: for each candidate identifier in turn,
try the exact group key, then the normalized group key, then (only for
candidates of length at least 3) substring containment against every group
key in iteration order; return the first matching group and the key that
matched, or an empty group and no key. -/
def findInstancesForApp (ctx : DockCtx) (aid : AppId) (rw : RWMap) :
    List Client × Option PyStr :=
  let ids := possibleIdentifiers ctx aid
  match ids.findSome? (fun identifier =>
    match alookup rw identifier with
    | some g => some (g, identifier)
    | none =>
        match alookup rw (normalizeWindowClass identifier) with
        | some g => some (g, normalizeWindowClass identifier)
        | none =>
            if 3 ≤ identifier.length then
              rw.findSome? fun kv =>
                if containsSub identifier kv.1 then some (kv.2, kv.1) else none
            else none) with
  | some r => (r.1, some r.2)
  | none => ([], none)

/-- A dock button as the model keeps it: the identifier it was created for,
the resolved descriptor, and the attached window instances. -/
structure DockButton where
  app_identifier : AppId
  desktop_app : Option AppDesc
  instances : List Client
deriving DecidableEq, Repr

/-- `Dock.create_button` (the model keeps only the data the claims are
about; icon and label resolution are rendering-layer concerns). -/
def createButton (ctx : DockCtx) (aid : AppId) (instances : List Client) :
    DockButton :=
  ⟨aid, findApp ctx aid, instances⟩

/-- Python `set.add`. -/
def setAdd (s : List PyStr) (x : PyStr) : List PyStr :=
  if x ∈ s then s else s ++ [x]

/-- One iteration of the loop of `Dock._create_pinned_buttons`. -/
def pinnedStep (ctx : DockCtx) (rw : RWMap)
    (acc : List DockButton × List PyStr) (aid : AppId) :
    List DockButton × List PyStr :=
  let fi := findInstancesForApp ctx aid rw
  let used := match fi.2 with
    | some m => setAdd (setAdd acc.2 m) (normalizeWindowClass m)
    | none => acc.2
  (acc.1 ++ [createButton ctx aid fi.1], used)

/-- `Dock._create_pinned_buttons`: one button per pinned record in order,
collecting each matched class and its normalized form into `used_classes`. -/
def createPinnedButtons (ctx : DockCtx) (pinned : List AppId) (rw : RWMap) :
    List DockButton × List PyStr :=
  pinned.foldl (pinnedStep ctx rw) ([], [])

/-- `Dock._create_app_identifier`: exact index lookup by the group key,
then by its normalized form, then `find_app_by_key`, then by the first
window's title segment when longer than 2; a resolved descriptor becomes a
full structured record, otherwise the bare key is kept. -/
def createAppIdentifier (ctx : DockCtx) (className : PyStr)
    (instances : List Client) : AppId :=
  let app0 := dLookup (appIdentifiers ctx) className
  let app1 := match app0 with
    | some a => some a
    | none => dLookup (appIdentifiers ctx) (normalizeWindowClass className)
  let app2 := match app1 with
    | some a => some a
    | none => findAppByKey ctx className
  let app3 := match app2 with
    | some a => some a
    | none =>
        match instances.head? with
        | some c =>
            if c.title ≠ [] then
              let potential := pyStrip (splitFirst (pystr " - ") c.title)
              if 2 < potential.length then findAppByKey ctx potential else none
            else none
        | none => none
  match app3 with
  | some a =>
      .record ⟨some a.name, some a.display_name, some a.window_class,
               some a.executable, some a.command_line⟩
  | none => .bare className

/-- `Dock._create_open_buttons`: one button per group key not in
`used_classes`, in the grouping's iteration order. -/
def createOpenButtons (ctx : DockCtx) (rw : RWMap) (used : List PyStr) :
    List DockButton :=
  (rw.filter fun kv => decide (kv.1 ∉ used)).map fun kv =>
    createButton ctx (createAppIdentifier ctx kv.1 kv.2) kv.2

/-- An entry of the reconciled button model. -/
inductive DockEntry where
  | button (b : DockButton)
  | separator
deriving DecidableEq, Repr

/-- `Dock._combine_buttons`: pinned buttons, one separator only when both
sections are non-empty, then the open buttons. -/
def combineButtons (pinnedButtons openButtons : List DockButton) :
    List DockEntry :=
  (pinnedButtons.map DockEntry.button)
    ++ (if pinnedButtons ≠ [] ∧ openButtons ≠ [] then [DockEntry.separator] else [])
    ++ (openButtons.map DockEntry.button)

/-- The reconciliation pass of `Dock.update_dock` for a given grouping. -/
def reconcile (ctx : DockCtx) (pinned : List AppId) (rw : RWMap) :
    List DockEntry :=
  let pb := createPinnedButtons ctx pinned rw
  combineButtons pb.1 (createOpenButtons ctx rw pb.2)

/-- `Dock.update_dock`: group the clients, then reconcile. -/
def updateDockModel (ctx : DockCtx) (pinned : List AppId)
    (clients : List Client) : List DockEntry :=
  reconcile ctx pinned (buildRunningWindows clients)

-- ==================== lemmas about the pinned fold ====================

theorem createPinnedButtons_fst (ctx : DockCtx) (rw : RWMap) (pinned : List AppId) :
    (createPinnedButtons ctx pinned rw).1
      = pinned.map fun aid =>
          createButton ctx aid (findInstancesForApp ctx aid rw).1 := by
  unfold createPinnedButtons
  suffices h : ∀ acc : List DockButton × List PyStr,
      (pinned.foldl (pinnedStep ctx rw) acc).1
        = acc.1 ++ pinned.map
            (fun aid => createButton ctx aid (findInstancesForApp ctx aid rw).1) by
    simpa using h ([], [])
  induction pinned with
  | nil => intro acc; simp
  | cons aid rest ih =>
    intro acc
    rw [List.foldl_cons, ih]
    simp [pinnedStep]

theorem mem_setAdd_of_mem (s : List PyStr) (x y : PyStr) (h : x ∈ s) :
    x ∈ setAdd s y := by
  unfold setAdd
  split
  · exact h
  · exact List.mem_append_left _ h

theorem mem_setAdd_self (s : List PyStr) (y : PyStr) : y ∈ setAdd s y := by
  unfold setAdd
  split
  · assumption
  · exact List.mem_append_right _ (by simp)

theorem used_mono (ctx : DockCtx) (rw : RWMap) (pinned : List AppId)
    (acc : List DockButton × List PyStr) (x : PyStr) (h : x ∈ acc.2) :
    x ∈ (pinned.foldl (pinnedStep ctx rw) acc).2 := by
  induction pinned generalizing acc with
  | nil => exact h
  | cons aid rest ih =>
    rw [List.foldl_cons]
    apply ih
    simp only [pinnedStep]
    cases hfi : (findInstancesForApp ctx aid rw).2 with
    | none => exact h
    | some m => exact mem_setAdd_of_mem _ _ _ (mem_setAdd_of_mem _ _ _ h)

theorem matched_mem_used (ctx : DockCtx) (rw : RWMap) (pinned : List AppId)
    (aid : AppId) (h : aid ∈ pinned) (mc : PyStr)
    (hm : (findInstancesForApp ctx aid rw).2 = some mc) :
    mc ∈ (createPinnedButtons ctx pinned rw).2
    ∧ normalizeWindowClass mc ∈ (createPinnedButtons ctx pinned rw).2 := by
  unfold createPinnedButtons
  suffices hgen : ∀ acc : List DockButton × List PyStr,
      mc ∈ (pinned.foldl (pinnedStep ctx rw) acc).2
      ∧ normalizeWindowClass mc ∈ (pinned.foldl (pinnedStep ctx rw) acc).2 from
    hgen ([], [])
  induction pinned with
  | nil => cases h
  | cons a0 rest ih =>
    intro acc
    rcases List.mem_cons.mp h with hc | hc
    · subst hc
      rw [List.foldl_cons]
      constructor
      · apply used_mono
        simp only [pinnedStep, hm]
        exact mem_setAdd_of_mem _ _ _ (mem_setAdd_self _ _)
      · apply used_mono
        simp only [pinnedStep, hm]
        exact mem_setAdd_self _ _
    · rw [List.foldl_cons]
      exact ih hc _

-- ==================== C1: what separates the two sections ====================

/-- C1 (amended): one reconciliation pass never assigns a live window group
matched by a pinned button to the unpinned section under the matched key —
every grouping key that yields an unpinned open button differs from every
pinned entry's matched key and from its normalized form.  (Distinct pinned
buttons, however, may receive the same window group.) -/
theorem dock_c1_pinned_open_key_disjoint (ctx : DockCtx) (pinned : List AppId)
    (rw : RWMap) (aid : AppId) (mc : PyStr) (kv : PyStr × List Client)
    (h1 : aid ∈ pinned)
    (h2 : (findInstancesForApp ctx aid rw).2 = some mc)
    (h3 : kv ∈ rw.filter fun kv =>
        decide (kv.1 ∉ (createPinnedButtons ctx pinned rw).2)) :
    kv.1 ≠ mc ∧ kv.1 ≠ normalizeWindowClass mc := by
  obtain ⟨hmem, hdec⟩ := List.mem_filter.mp h3
  have hniu : kv.1 ∉ (createPinnedButtons ctx pinned rw).2 := by
    simpa using hdec
  obtain ⟨hmc, hnorm⟩ := matched_mem_used ctx rw pinned aid h1 mc h2
  exact ⟨fun he => hniu (he ▸ hmc), fun he => hniu (he ▸ hnorm)⟩

def c1Window : Client := ⟨pystr "0xa", pystr "foo", [], pystr "win", 1⟩

def c1RecA : AppId :=
  .record ⟨some (pystr "a"), none, some (pystr "foo"), none, none⟩

def c1RecB : AppId :=
  .record ⟨some (pystr "b"), none, some (pystr "foo"), none, none⟩

/-- C1 counterexample: with an empty catalog, two distinct pinned records
that both carry window class `"foo"`, and one live window of that class,
both pinned buttons receive the same (non-empty) window group — the
instance lists of distinct pinned buttons are not pairwise disjoint. -/
theorem dock_c1_counterexample :
    ((createPinnedButtons ⟨[]⟩ [c1RecA, c1RecB]
        (buildRunningWindows [c1Window])).1.map fun b => b.instances)
      = [[c1Window], [c1Window]]
    ∧ ((createPinnedButtons ⟨[]⟩ [c1RecA, c1RecB]
        (buildRunningWindows [c1Window])).1.map fun b => b.app_identifier)
      = [c1RecA, c1RecB]
    ∧ c1RecA ≠ c1RecB := by
  refine ⟨by decide, by decide, by decide⟩

def c1Window2 : Client := ⟨pystr "0xb", pystr "bar", [], pystr "other", 1⟩

def c1Rw : RWMap := [(pystr "foo", [c1Window]), (pystr "bar", [c1Window2])]

/-- Witness for the amended C1 theorem: a pinned record matching key
`"foo"` and a second group key `"bar"` that becomes an open button. -/
theorem dock_c1_pinned_open_key_disjoint_witness :
    c1RecA ∈ [c1RecA]
    ∧ (findInstancesForApp ⟨[]⟩ c1RecA c1Rw).2 = some (pystr "foo")
    ∧ (pystr "bar", [c1Window2]) ∈ c1Rw.filter (fun kv =>
        decide (kv.1 ∉ (createPinnedButtons ⟨[]⟩ [c1RecA] c1Rw).2))
    ∧ ((pystr "bar", [c1Window2]).1 ≠ pystr "foo"
        ∧ (pystr "bar", [c1Window2]).1 ≠ normalizeWindowClass (pystr "foo")) :=
  ⟨by decide, by decide, by decide,
    dock_c1_pinned_open_key_disjoint ⟨[]⟩ [c1RecA] c1Rw c1RecA (pystr "foo")
      (pystr "bar", [c1Window2]) (by decide) (by decide) (by decide)⟩

-- ==================== C2: section order and the separator ====================

theorem countP_sep_map_button (l : List DockButton) :
    (l.map DockEntry.button).countP (fun e => e == DockEntry.separator) = 0 := by
  induction l with
  | nil => rfl
  | cons b rest ih => simp [List.countP_cons, ih]

theorem countP_sep_map {α : Type} (l : List α) (f : α → DockButton) :
    (l.map fun a => DockEntry.button (f a)).countP
      (fun e => e == DockEntry.separator) = 0 := by
  induction l with
  | nil => rfl
  | cons b rest ih => simp [List.countP_cons, ih]

/-- C2: the reconciled button model is the pinned entries first, one per
pinned record in record order (each carrying the instances found for its
record), then exactly one separator if and only if both the pinned list and
the open (unpinned) list are non-empty, then the open buttons in the
grouping's iteration order; and `update_dock` is this reconciliation of the
grouping built from the client list. -/
theorem dock_c2_section_order (ctx : DockCtx) (pinned : List AppId) (rw : RWMap) :
    reconcile ctx pinned rw
      = (pinned.map fun aid =>
            DockEntry.button (createButton ctx aid (findInstancesForApp ctx aid rw).1))
        ++ (if pinned ≠ []
              ∧ createOpenButtons ctx rw (createPinnedButtons ctx pinned rw).2 ≠ []
            then [DockEntry.separator] else [])
        ++ (createOpenButtons ctx rw (createPinnedButtons ctx pinned rw).2).map
            DockEntry.button
    ∧ (reconcile ctx pinned rw).countP (fun e => e == DockEntry.separator)
        = (if pinned ≠ []
              ∧ createOpenButtons ctx rw (createPinnedButtons ctx pinned rw).2 ≠ []
           then 1 else 0)
    ∧ ∀ clients : List Client,
        updateDockModel ctx pinned clients
          = reconcile ctx pinned (buildRunningWindows clients) := by
  have hfst := createPinnedButtons_fst ctx rw pinned
  have hmain : reconcile ctx pinned rw
      = (pinned.map fun aid =>
            DockEntry.button (createButton ctx aid (findInstancesForApp ctx aid rw).1))
        ++ (if pinned ≠ []
              ∧ createOpenButtons ctx rw (createPinnedButtons ctx pinned rw).2 ≠ []
            then [DockEntry.separator] else [])
        ++ (createOpenButtons ctx rw (createPinnedButtons ctx pinned rw).2).map
            DockEntry.button := by
    simp only [reconcile, combineButtons]
    rw [hfst, List.map_map]
    by_cases hp : pinned = []
    · subst hp
      simp
    · by_cases ho :
          createOpenButtons ctx rw (createPinnedButtons ctx pinned rw).2 = []
      · simp [hp, ho, List.map_eq_nil_iff, Function.comp]
      · simp [hp, ho, List.map_eq_nil_iff, Function.comp]
  refine ⟨hmain, ?_, fun clients => rfl⟩
  rw [hmain]
  rw [List.countP_append, List.countP_append, countP_sep_map_button,
    countP_sep_map pinned
      (fun aid => createButton ctx aid (findInstancesForApp ctx aid rw).1)]
  split
  · rfl
  · rfl

-- ==================== DockConfig: load, migration, save ====================

/-- One persisted `pinned_apps` entry: a legacy bare string or a structured
record. -/
inductive PinnedEntry where
  | bareStr (s : PyStr)
  | structured (r : PinnedRec)
deriving DecidableEq, Repr

/-- The modelled Python exceptions that `DockConfig._read_config` does not
catch. -/
inductive PyErr where
  | typeError
deriving DecidableEq, Repr

/-- The parsed state of the config file: missing (`FileNotFoundError`),
malformed JSON (`json.JSONDecodeError`), or a parsed `pinned_apps` list. -/
inductive FileState where
  | missing
  | malformed
  | parsed (pinnedApps : List PinnedEntry)
deriving DecidableEq, Repr

/-- The name-keyed catalog dict of `DockConfig._migrate_config`
(`{app.name: app for app in all_apps if app.name}`; later entries win). -/
def appMapOf (apps : List AppDesc) : IdMap :=
  apps.foldl (fun m a => if a.name ≠ [] then dInsert m a.name a else m) []

/-- Migration of one legacy bare string: a catalog hit by name becomes the
full structured record, a miss becomes a record carrying only `name`. -/
def migrateBare (appMap : IdMap) (s : PyStr) : PinnedEntry :=
  match dLookup appMap s with
  | some a =>
      .structured ⟨some a.name, some a.display_name, some a.window_class,
                   some a.executable, some a.command_line⟩
  | none => .structured ⟨some s, none, none, none, none⟩

/-- The migration loop of `DockConfig._migrate_config`: `app_map.get(app_id)`
with a dict entry raises `TypeError` (unhashable key), which the caller's
`except (FileNotFoundError, json.JSONDecodeError)` does not catch. -/
def migrateEntries (appMap : IdMap) :
    List PinnedEntry → Except PyErr (List PinnedEntry)
  | [] => .ok []
  | .bareStr s :: rest =>
      match migrateEntries appMap rest with
      | .ok tail => .ok (migrateBare appMap s :: tail)
      | .error e => .error e
  | .structured _ :: _ => .error .typeError

/-- `DockConfig._needs_migration`: the pinned list is non-empty and its
first entry is a bare string. -/
def needsMigration : List PinnedEntry → Bool
  | .bareStr _ :: _ => true
  | _ => false

/-- `DockConfig._read_config`: missing or malformed file yields the empty
pinned list; a parsed document is migrated when its first pinned entry is a
bare string; a `TypeError` raised during migration propagates. -/
def readConfig (apps : List AppDesc) : FileState → Except PyErr (List PinnedEntry)
  | .missing => .ok []
  | .malformed => .ok []
  | .parsed doc =>
      if needsMigration doc then migrateEntries (appMapOf apps) doc else .ok doc

/-- `DockConfig.save` followed by re-reading the file: `json.dump` and
`json.load` round-trip the document, modelled as the identity on the parsed
state. -/
def savedFile (doc : List PinnedEntry) : FileState := .parsed doc

/-- C6 counterexample: a persisted document whose pinned list starts with a
bare string but also contains a structured record makes one load raise
`TypeError` (from `app_map.get(dict)`), so no migrated list of the same
length is produced. -/
theorem dock_c6_counterexample :
    readConfig []
      (.parsed [.bareStr (pystr "x"),
                .structured ⟨some (pystr "y"), none, none, none, none⟩])
      = .error .typeError := rfl

theorem migrateEntries_all_bare (appMap : IdMap) (ss : List PyStr) :
    migrateEntries appMap (ss.map PinnedEntry.bareStr)
      = .ok (ss.map (migrateBare appMap)) := by
  induction ss with
  | nil => rfl
  | cons s rest ih => simp [migrateEntries, ih]

/-- C6 (amended): for every persisted document whose pinned entries are all
bare strings, one load migrates every entry — a string found in the
name-keyed catalog map becomes the full structured record, any other string
becomes a record carrying only `name` — and the migrated list has the same
length and order as the input.  (A document that merely starts with a bare
string but contains a structured entry instead raises `TypeError`.) -/
theorem dock_c6_migration_all_bare (apps : List AppDesc) (ss : List PyStr) :
    readConfig apps (.parsed (ss.map PinnedEntry.bareStr))
      = .ok (ss.map (migrateBare (appMapOf apps)))
    ∧ (ss.map (migrateBare (appMapOf apps))).length = ss.length := by
  refine ⟨?_, by simp⟩
  cases ss with
  | nil => rfl
  | cons s rest =>
    simp only [readConfig]
    rw [show needsMigration ((s :: rest).map PinnedEntry.bareStr) = true from rfl,
      if_pos rfl]
    exact migrateEntries_all_bare (appMapOf apps) (s :: rest)

/-- C8: saving a well-formed structured record list (no legacy bare
strings) and loading it back returns the list unchanged — no migration is
triggered and nothing is altered. -/
theorem dock_c8_save_load_roundtrip (apps : List AppDesc)
    (records : List PinnedRec) :
    readConfig apps (savedFile (records.map PinnedEntry.structured))
      = .ok (records.map PinnedEntry.structured) := by
  cases records with
  | nil => rfl
  | cons r rest => rfl

-- ==================== C7: compositor query failure ====================

/-- The outcome of the `j/clients` IPC call as `Dock.get_clients` sees it:
an exception from the socket layer (an IPC error, not a
`json.JSONDecodeError`), or a reply whose JSON parse succeeded or failed. -/
inductive QueryOutcome where
  | ipcError
  | reply (parsed : Option (List Client))
deriving DecidableEq, Repr

/-- `Dock.get_clients`: the `except json.JSONDecodeError` clause turns a
malformed reply into the empty list, but an IPC-level exception is not
caught and propagates. -/
def getClients : QueryOutcome → Except Unit (List Client)
  | .ipcError => .error ()
  | .reply none => .ok []
  | .reply (some cs) => .ok cs

/-- C7 counterexample: an IPC-level failure does not yield the empty list —
`get_clients` catches only `json.JSONDecodeError`, so the exception
propagates out of the reconciliation pass. -/
theorem dock_c7_counterexample :
    getClients .ipcError = .error () ∧ getClients .ipcError ≠ .ok [] :=
  ⟨rfl, fun h => nomatch h⟩

theorem findSome?_of_all_none {α β : Type} (l : List α) (f : α → Option β)
    (h : ∀ a, f a = none) : l.findSome? f = none := by
  induction l with
  | nil => rfl
  | cons a rest ih =>
    rw [List.findSome?_cons, h a]
    exact ih

theorem findInstances_empty_rw (ctx : DockCtx) (aid : AppId) :
    findInstancesForApp ctx aid [] = ([], none) := by
  simp only [findInstancesForApp]
  have h : ∀ i : PyStr,
      (match alookup [] i with
        | some g => some (g, i)
        | none =>
            match alookup [] (normalizeWindowClass i) with
            | some g => some (g, normalizeWindowClass i)
            | none =>
                if 3 ≤ i.length then
                  List.findSome? (fun kv =>
                    if containsSub i kv.1 then some (kv.2, kv.1) else none)
                    ([] : RWMap)
                else none)
        = (none : Option (List Client × PyStr)) := by
    intro i
    show (if 3 ≤ i.length then (none : Option (List Client × PyStr)) else none)
      = none
    split <;> rfl
  rw [findSome?_of_all_none _ _ h]

/-- C7 (amended): for every malformed JSON reply `get_clients` returns the
empty list rather than raising, and with an empty client list the
reconciliation pass degrades to exactly the pinned buttons, each with no
instances, no separator and no open buttons; an IPC-level error, however,
is not caught by the `except json.JSONDecodeError` clause and propagates. -/
theorem dock_c7_malformed_degrades (ctx : DockCtx) (pinned : List AppId) :
    getClients (.reply none) = .ok []
    ∧ getClients .ipcError = .error ()
    ∧ updateDockModel ctx pinned []
        = pinned.map fun aid => DockEntry.button (createButton ctx aid []) := by
  refine ⟨rfl, rfl, ?_⟩
  show reconcile ctx pinned (buildRunningWindows []) = _
  have hrw : buildRunningWindows ([] : List Client) = [] := rfl
  rw [hrw]
  simp only [reconcile, combineButtons]
  have hob : createOpenButtons ctx [] (createPinnedButtons ctx pinned []).2 = [] :=
    rfl
  rw [hob, createPinnedButtons_fst,
    if_neg (fun hc => hc.2 rfl)]
  simp only [List.map_map, List.map_nil, List.append_nil, Function.comp]
  simp only [findInstances_empty_rw]
  rfl

-- ==================== C9: occlusion force and restore ====================

/-- The occlusion-related state of a non-integrated dock: the flags read
and written by `check_occlusion_state`, `force_occlusion` and
`restore_from_occlusion`, plus the revealer state and the presence of the
`occluded` style class. -/
structure OccState where
  alwaysShow : Bool
  forcedOcclusion : Bool
  savedAlwaysShow : Option Bool
  isMouseOverDockArea : Bool
  dragInProgress : Bool
  preventOcclusion : Bool
  revealChild : Bool
  occluded : Bool
deriving DecidableEq, Repr

/-- `Dock.check_occlusion_state`: forced occlusion shows the dock exactly
while hovered; otherwise hover, drag or the prevent flag force it shown;
otherwise `always_show` decides. -/
def checkOcclusionState (s : OccState) : OccState :=
  if s.forcedOcclusion then
    if s.isMouseOverDockArea then
      if ¬ s.revealChild then { s with revealChild := true, occluded := false }
      else s
    else
      if s.revealChild then { s with revealChild := false, occluded := true }
      else s
  else if s.isMouseOverDockArea || s.dragInProgress || s.preventOcclusion then
    if ¬ s.revealChild then
      if ¬ s.alwaysShow then { s with revealChild := true, occluded := false }
      else { s with revealChild := true }
    else s
  else if s.alwaysShow then
    if ¬ s.revealChild then { s with revealChild := true, occluded := false }
    else s
  else
    if s.revealChild then { s with revealChild := false, occluded := true }
    else s

/-- `Dock.force_occlusion`: snapshot `always_show`, clear it, set the
forced flag, and hide immediately unless hovered. -/
def forceOcclusion (s : OccState) : OccState :=
  let s1 := { s with savedAlwaysShow := some s.alwaysShow,
                     alwaysShow := false,
                     forcedOcclusion := true }
  if ¬ s1.isMouseOverDockArea then { s1 with revealChild := false } else s1

/-- The state mutation of `Dock.restore_from_occlusion` before its final
`check_occlusion_state()` call: clear the forced flag and restore the saved
`always_show` snapshot when one exists. -/
def restoreCore (s : OccState) : OccState :=
  let s1 := { s with forcedOcclusion := false }
  match s1.savedAlwaysShow with
  | some b => { s1 with alwaysShow := b, savedAlwaysShow := none }
  | none => s1

/-- `Dock.restore_from_occlusion`: the core mutation followed by exactly
one re-evaluation of the reveal state. -/
def restoreFromOcclusion (s : OccState) : OccState :=
  checkOcclusionState (restoreCore s)

theorem checkOcclusion_preserves (s : OccState) :
    (checkOcclusionState s).alwaysShow = s.alwaysShow
    ∧ (checkOcclusionState s).forcedOcclusion = s.forcedOcclusion
    ∧ (checkOcclusionState s).savedAlwaysShow = s.savedAlwaysShow := by
  unfold checkOcclusionState
  repeat' split
  all_goals simp

/-- C9: from every starting occlusion state, `force_occlusion()` followed
immediately by `restore_from_occlusion()` (no intervening hover or drag
event) restores `always_show` to its exact pre-force value, clears the
forced-hidden flag (and the snapshot), and performs exactly one
re-evaluation of the reveal state. -/
theorem dock_c9_force_restore (s : OccState) :
    (restoreFromOcclusion (forceOcclusion s)).alwaysShow = s.alwaysShow
    ∧ (restoreFromOcclusion (forceOcclusion s)).forcedOcclusion = false
    ∧ (restoreFromOcclusion (forceOcclusion s)).savedAlwaysShow = none
    ∧ restoreFromOcclusion (forceOcclusion s)
        = checkOcclusionState (restoreCore (forceOcclusion s)) := by
  have hp := checkOcclusion_preserves (restoreCore (forceOcclusion s))
  have hrc : (restoreCore (forceOcclusion s)).alwaysShow = s.alwaysShow
      ∧ (restoreCore (forceOcclusion s)).forcedOcclusion = false
      ∧ (restoreCore (forceOcclusion s)).savedAlwaysShow = none := by
    simp only [restoreCore, forceOcclusion]
    cases hm : s.isMouseOverDockArea <;> simp [hm]
  refine ⟨?_, ?_, ?_, rfl⟩
  · show (checkOcclusionState (restoreCore (forceOcclusion s))).alwaysShow
      = s.alwaysShow
    rw [hp.1, hrc.1]
  · show (checkOcclusionState (restoreCore (forceOcclusion s))).forcedOcclusion
      = false
    rw [hp.2.1, hrc.2.1]
  · show (checkOcclusionState (restoreCore (forceOcclusion s))).savedAlwaysShow
      = none
    rw [hp.2.2, hrc.2.2]

-- ==================== C10: instance cycling on activation ====================

/-- Python `next((i for i, inst in enumerate(instances)
if inst["address"] == focused), -1)` without the default: the index of the
first instance whose address is the focused one. -/
def enumFindIdx (p : Client → Bool) : List Client → Option Nat
  | [] => none
  | c :: rest => if p c then some 0 else (enumFindIdx p rest).map (· + 1)

/-- The cycle index of `Dock._focus_next_instance`: the first matching
index, defaulting to `-1`. -/
def cycleIdx (instances : List Client) (focused : PyStr) : Int :=
  match enumFindIdx (fun inst => decide (inst.address = focused)) instances with
  | some i => (i : Int)
  | none => -1

/-- `Dock._focus_next_instance`: the instance that receives focus, namely
`instances[(idx + 1) % len(instances)]` (Python `%` on a positive modulus
is the non-negative remainder, as is `Int.emod`).  Python raises
`ZeroDivisionError` on an empty list — `handle_app` only calls this with a
non-empty one — modelled as `none`. -/
def nextInstance (instances : List Client) (focused : PyStr) : Option Client :=
  instances.get?
    ((cycleIdx instances focused + 1) % (instances.length : Int)).toNat

theorem enumFindIdx_none (p : Client → Bool) (l : List Client)
    (h : ∀ c ∈ l, p c = false) : enumFindIdx p l = none := by
  induction l with
  | nil => rfl
  | cons c rest ih =>
    have hc := h c (List.mem_cons_self c rest)
    have ht := ih fun x hx => h x (List.mem_cons_of_mem c hx)
    simp [enumFindIdx, hc, ht]

/-- C10: activating a button with a non-empty instance list focuses the
first instance when the focused window is not among the instances (the
cycle index defaults to `-1`, so the next index is `0`), and the instance
at index `(i + 1) mod length` when the focused window is the instance at
the first matching index `i`. -/
theorem dock_c10_focus_cycle (instances : List Client) (focused : PyStr)
    (h : instances ≠ []) :
    ((∀ inst ∈ instances, inst.address ≠ focused) →
        nextInstance instances focused = instances.head?)
    ∧ (∀ i : Nat,
        enumFindIdx (fun inst => decide (inst.address = focused)) instances
          = some i →
        nextInstance instances focused
          = instances.get? ((i + 1) % instances.length)) := by
  constructor
  · intro hnone
    have he : enumFindIdx (fun inst => decide (inst.address = focused)) instances
        = none :=
      enumFindIdx_none _ _ fun c hc => by simp [hnone c hc]
    unfold nextInstance cycleIdx
    rw [he]
    have : ((-1 : Int) + 1) % (instances.length : Int) = 0 := by
      rw [show ((-1 : Int) + 1) = 0 from rfl]
      exact Int.zero_emod _
    rw [this]
    cases instances with
    | nil => exact absurd rfl h
    | cons c rest => rfl
  · intro i hi
    unfold nextInstance cycleIdx
    rw [hi]
    have hcast : (((i : Int) + 1) % (instances.length : Int)).toNat
        = (i + 1) % instances.length := by
      have h1 : (((i + 1) % instances.length : Nat) : Int)
          = ((i : Int) + 1) % (instances.length : Int) := by
        push_cast
        rfl
      rw [← h1, Int.toNat_natCast]
    rw [hcast]

def c10A : Client := ⟨pystr "0x1", pystr "app", [], pystr "one", 1⟩

def c10B : Client := ⟨pystr "0x2", pystr "app", [], pystr "two", 1⟩

/-- Witness for C10 on a concrete two-instance list whose first instance is
focused: the conclusion instantiates, and with index 0 the focus moves to
the second instance. -/
theorem dock_c10_focus_cycle_witness :
    ([c10A, c10B] ≠ [])
    ∧ (((∀ inst ∈ [c10A, c10B], inst.address ≠ pystr "0x1") →
          nextInstance [c10A, c10B] (pystr "0x1") = [c10A, c10B].head?)
        ∧ (∀ i : Nat,
            enumFindIdx (fun inst => decide (inst.address = pystr "0x1"))
              [c10A, c10B] = some i →
            nextInstance [c10A, c10B] (pystr "0x1")
              = [c10A, c10B].get? ((i + 1) % [c10A, c10B].length))) :=
  ⟨by decide, dock_c10_focus_cycle [c10A, c10B] (pystr "0x1") (by decide)⟩
